import Mathlib

/-!
Shallow embedding of src/src/locktower.rs (the vote-tower consensus core).

Conventions of the embedding:
  * Rust `usize` values are modelled as `Nat` (no overflow is reachable in the
    claims' inputs; the Rust code does only additions, doublings and
    comparisons on small values).
  * `HashMap<usize, Branch>` (the fork registry) and `HashMap<usize, usize>`
    (the convergence map) are modelled as association lists; lookup takes the
    first entry with the matching key, which agrees with a map whose keys are
    unique.
  * `VecDeque<Vote>` is modelled as a `List Vote` whose head is the front of
    the deque (index 0 = newest vote = top of the tower).
  * A Rust `assert!` failure (panic) and a non-terminating ancestry walk are
    modelled by `Option`: `none` means the call does not return normally.
    `Branch.is_trunk_of` therefore runs on fuel `tree.length + 1`, which is
    enough for every walk that the Rust loop finishes (each successful lookup
    consumes a distinct registry entry when the registry is acyclic).
-/

namespace Locktower

structure Branch where
  id : Nat
  base : Nat
deriving DecidableEq

structure Vote where
  branch : Branch
  time : Nat
  lockout : Nat
deriving DecidableEq

def Vote.new (branch : Branch) (time : Nat) : Vote :=
  { branch := branch, time := time, lockout := 2 }

def Vote.lock_height (v : Vote) : Nat :=
  v.time + v.lockout

/-- Lookup in the fork registry, `branch_tree.get(&k)` in the source. -/
def treeGet (tree : List (Nat × Branch)) (k : Nat) : Option Branch :=
  (tree.find? (fun p => p.1 == k)).map Prod.snd

/-- The loop body of `Branch::is_trunk_of`, with explicit fuel. `none` models
a panic of the `assert!(branch_tree.get(&0).is_none())` or a walk that does
not terminate within the fuel. -/
def is_trunk_ofFuel (self : Branch) (tree : List (Nat × Branch)) : Nat → Branch → Option Bool
  | 0, _ => none
  | fuel + 1, current =>
    if current.id = self.id then some true
    else if current.base = 0 ∧ self.id = 0 then
      match treeGet tree 0 with
      | some _ => none
      | none => some true
    else
      match treeGet tree current.base with
      | none => some false
      | some b => is_trunk_ofFuel self tree fuel b

/-- Rust `Branch::is_trunk_of(&self, other, branch_tree)`. -/
def Branch.is_trunk_of (self other : Branch) (tree : List (Nat × Branch)) : Option Bool :=
  is_trunk_ofFuel self tree (tree.length + 1) other

/-- Rust `Vote::is_trunk_of`. -/
def Vote.is_trunk_of (v w : Vote) (tree : List (Nat × Branch)) : Option Bool :=
  Branch.is_trunk_of v.branch w.branch tree

structure LockTower where
  votes : List Vote
  max_size : Nat
  branch_trunk : Branch
deriving DecidableEq

/-- Rust `LockTower::new`; `Branch::default()` is `{ id: 0, base: 0 }`. -/
def LockTower.new (max_size : Nat) : LockTower :=
  { votes := [], max_size := max_size, branch_trunk := { id := 0, base := 0 } }

/-- The index-tracking loop of `rollback`: the largest index (as `Int`,
`-1` when there is none) of a vote with `lock_height < time`. -/
def lastExpiredFrom (time : Nat) : Int → Nat → List Vote → Int
  | last, _, [] => last
  | last, i, v :: vs =>
    lastExpiredFrom time (if v.lock_height < time then (i : Int) else last) (i + 1) vs

/-- Rust `LockTower::rollback`: it pops `last + 1` votes from the FRONT of the
deque (the top of the tower). -/
def LockTower.rollback (t : LockTower) (time : Nat) : LockTower :=
  { t with votes := t.votes.drop (Int.toNat (lastExpiredFrom time (-1) 0 t.votes + 1)) }

def LockTower.last_vote (t : LockTower) : Option Vote :=
  t.votes.head?

def LockTower.get_vote (t : LockTower) (ix : Nat) : Option Vote :=
  t.votes.get? ix

def LockTower.first_vote (t : LockTower) : Option Vote :=
  t.votes.getLast?

def LockTower.last_branch (t : LockTower) : Branch :=
  ((t.last_vote).map Vote.branch).getD t.branch_trunk

def LockTower.is_valid (t : LockTower) (vote : Vote) (tree : List (Nat × Branch)) : Option Bool :=
  Branch.is_trunk_of t.last_branch vote.branch tree

/-- Rust `converge_map.get(&id).unwrap_or(&0)`. -/
def convCount (cmap : List (Nat × Nat)) (id0 : Nat) : Nat :=
  ((cmap.find? (fun p => p.1 == id0)).map Prod.snd).getD 0

/-- Rust `LockTower::is_converged`; `none` models the `assert!(v <= 100)`
panic. -/
def LockTower.is_converged (t : LockTower) (cmap : List (Nat × Nat)) (depth : Nat) : Option Bool :=
  match t.get_vote depth with
  | some v =>
    if convCount cmap v.branch.id ≤ 100 then some (decide (50 < convCount cmap v.branch.id))
    else none
  | none => some true

/-- Rust `LockTower::is_full`; `none` models the
`assert!(self.votes.len() <= self.max_size)` panic. -/
def LockTower.is_full (t : LockTower) : Option Bool :=
  if t.votes.length ≤ t.max_size then some (decide (t.votes.length = t.max_size))
  else none

/-- The doubling loop of `enter_vote`: walking from the top, a vote's lockout
is doubled when it equals the (already updated) lockout of the vote above it;
`prev` carries that updated lockout. -/
def doubleLockouts : Nat → List Vote → List Vote
  | _, [] => []
  | prev, v :: vs =>
    if v.lockout = prev then
      { v with lockout := v.lockout * 2 } :: doubleLockouts (v.lockout * 2) vs
    else
      v :: doubleLockouts v.lockout vs

/-- Rust `LockTower::enter_vote`; `none` models the panics of
`assert!(!self.is_full())`, `assert_eq!(vote.lockout, 2)` and
`assert!(self.votes[i].time <= vote_time)`. -/
def LockTower.enter_vote (t : LockTower) (vote : Vote) : Option LockTower :=
  match t.is_full with
  | none => none
  | some true => none
  | some false =>
    if vote.lockout = 2 then
      if ∀ v ∈ t.votes, v.time ≤ vote.time then
        some { t with votes := vote :: doubleLockouts vote.lockout t.votes }
      else none
    else none

/-- Rust `LockTower::pop_full`; `none` models `assert!(self.is_full())` and the
`unwrap` of `pop_back`. -/
def LockTower.pop_full (t : LockTower) : Option LockTower :=
  match t.is_full with
  | some true =>
    match t.votes.getLast? with
    | some v => some { t with votes := t.votes.dropLast, branch_trunk := v.branch }
    | none => none
  | _ => none

/-- The body of `push_vote` after the initial `self.rollback(vote.time)`:
ancestry check, convergence check, insertion, capacity pop, in source order. -/
def pushChecks (t1 : LockTower) (vote : Vote) (tree : List (Nat × Branch))
    (cmap : List (Nat × Nat)) (depth : Nat) : Option (Bool × LockTower) :=
  match t1.is_valid vote tree with
  | none => none
  | some false => some (false, t1)
  | some true =>
    match t1.is_converged cmap depth with
    | none => none
    | some false => some (false, t1)
    | some true =>
      match t1.enter_vote vote with
      | none => none
      | some t2 =>
        match t2.is_full with
        | none => none
        | some true =>
          match t2.pop_full with
          | none => none
          | some t3 => some (true, t3)
        | some false => some (true, t2)

/-- Rust `LockTower::push_vote`. The returned pair is (the returned Bool, the
tower state after the call); `none` models a panic anywhere inside. -/
def LockTower.push_vote (t : LockTower) (vote : Vote) (tree : List (Nat × Branch))
    (cmap : List (Nat × Nat)) (depth : Nat) : Option (Bool × LockTower) :=
  pushChecks (t.rollback vote.time) vote tree cmap depth

/-- A run of `push_vote` calls that must all return `true` (the accepted
proposals of the spec's scenarios); `none` when one is rejected or panics. -/
def pushSeq (tree : List (Nat × Branch)) (cmap : List (Nat × Nat)) (depth : Nat) :
    LockTower → List Vote → Option LockTower
  | t, [] => some t
  | t, v :: vs =>
    match t.push_vote v tree cmap depth with
    | some (true, t2) => pushSeq tree cmap depth t2 vs
    | _ => none

/-- Tower states reachable from a fresh tower by `push_vote` calls that return
normally (accepted or rejected, but no panic). -/
inductive Reachable : LockTower → Prop
  | init (cap : Nat) : Reachable (LockTower.new cap)
  | step {t : LockTower} {vote : Vote} {tree : List (Nat × Branch)}
      {cmap : List (Nat × Nat)} {depth : Nat} {b : Bool} {t2 : LockTower} :
      Reachable t → t.push_vote vote tree cmap depth = some (b, t2) → Reachable t2

/-- Ordering of votes by lockout, the relation of invariant A1 strictly. -/
def lockLt (a b : Vote) : Prop :=
  a.lockout < b.lockout

/-- A positive power of two, the shape every lockout in the tower has. -/
def Pow2L (n : Nat) : Prop :=
  ∃ k, 1 ≤ k ∧ n = 2 ^ k

/-- The reachability invariant of the vote stack: lockouts strictly increase
from top to bottom and every lockout is a positive power of two. -/
def LockChain (t : LockTower) : Prop :=
  List.Chain' lockLt t.votes ∧ ∀ v ∈ t.votes, Pow2L v.lockout

theorem chain'_drop {α : Type} {R : α → α → Prop} :
    ∀ (n : Nat) (l : List α), List.Chain' R l → List.Chain' R (l.drop n)
  | 0, _, h => h
  | _ + 1, [], _ => by simp
  | n + 1, a :: l, h => by
    rw [List.drop_succ_cons]
    exact chain'_drop n l (List.Chain'.tail h)

theorem chain'_dropLast {α : Type} {R : α → α → Prop} :
    ∀ (l : List α), List.Chain' R l → List.Chain' R l.dropLast
  | [], _ => by simp
  | [_], _ => by simp
  | a :: b :: l, h => by
    show List.Chain' R (a :: (b :: l).dropLast)
    rw [List.chain'_cons'] at h ⊢
    refine ⟨?_, chain'_dropLast (b :: l) h.2⟩
    intro y hy
    cases l with
    | nil => simp at hy
    | cons c l' =>
      have : (b :: c :: l').dropLast = b :: (c :: l').dropLast := rfl
      rw [this] at hy
      simp only [List.head?_cons, Option.mem_def, Option.some.injEq] at hy
      subst hy
      exact h.1 b rfl

theorem Pow2L.two_le {n : Nat} (h : Pow2L n) : 2 ≤ n := by
  obtain ⟨k, hk, rfl⟩ := h
  calc 2 = 2 ^ 1 := by norm_num
  _ ≤ 2 ^ k := Nat.pow_le_pow_right (by norm_num) hk

theorem Pow2L.mul_two {n : Nat} (h : Pow2L n) : Pow2L (n * 2) := by
  obtain ⟨k, hk, rfl⟩ := h
  exact ⟨k + 1, by omega, (pow_succ 2 k).symm⟩

theorem Pow2L.double_le {a b : Nat} (ha : Pow2L a) (hb : Pow2L b) (h : a < b) : a * 2 ≤ b := by
  obtain ⟨j, _, rfl⟩ := ha
  obtain ⟨k, _, rfl⟩ := hb
  have hjk : j < k := by
    by_contra hc
    push_neg at hc
    have := Nat.pow_le_pow_right (show 1 ≤ 2 by norm_num) hc
    omega
  calc 2 ^ j * 2 = 2 ^ (j + 1) := (pow_succ 2 j).symm
  _ ≤ 2 ^ k := Nat.pow_le_pow_right (by norm_num) (by omega)

theorem doubleLockouts_spec (vs : List Vote) :
    ∀ p : Nat, Pow2L p → (∀ v ∈ vs, Pow2L v.lockout) → List.Chain' lockLt vs →
      (∀ v ∈ vs.head?, p ≤ v.lockout) →
      (∀ v ∈ doubleLockouts p vs, Pow2L v.lockout ∧ p < v.lockout) ∧
        List.Chain' lockLt (doubleLockouts p vs) := by
  induction vs with
  | nil =>
    intro p _ _ _ _
    simp [doubleLockouts]
  | cons w vs ih =>
    intro p hp hmem hch hhead
    have hpw : p ≤ w.lockout := hhead w rfl
    have hwpow : Pow2L w.lockout := hmem w (List.mem_cons_self w vs)
    rw [List.chain'_cons'] at hch
    have hmem' : ∀ v ∈ vs, Pow2L v.lockout := fun v hv => hmem v (List.mem_cons_of_mem w hv)
    by_cases hew : w.lockout = p
    · simp only [doubleLockouts, if_pos hew]
      have hhead2 : ∀ v ∈ vs.head?, w.lockout * 2 ≤ v.lockout := fun v hv =>
        Pow2L.double_le hwpow (hmem' v (List.mem_of_mem_head? hv)) (hch.1 v hv)
      obtain ⟨hrmem, hrch⟩ := ih (w.lockout * 2) hwpow.mul_two hmem' hch.2 hhead2
      have h2w : p < w.lockout * 2 := by
        have := hwpow.two_le
        omega
      constructor
      · intro v hv
        rcases List.mem_cons.mp hv with rfl | hv
        · exact ⟨hwpow.mul_two, h2w⟩
        · obtain ⟨hq, hlt⟩ := hrmem v hv
          exact ⟨hq, by omega⟩
      · rw [List.chain'_cons']
        exact ⟨fun y hy => (hrmem y (List.mem_of_mem_head? hy)).2, hrch⟩
    · simp only [doubleLockouts, if_neg hew]
      have hplt : p < w.lockout := lt_of_le_of_ne hpw (fun he => hew he.symm)
      have hhead2 : ∀ v ∈ vs.head?, w.lockout ≤ v.lockout := fun v hv => le_of_lt (hch.1 v hv)
      obtain ⟨hrmem, hrch⟩ := ih w.lockout hwpow hmem' hch.2 hhead2
      constructor
      · intro v hv
        rcases List.mem_cons.mp hv with rfl | hv
        · exact ⟨hwpow, hplt⟩
        · obtain ⟨hq, hlt⟩ := hrmem v hv
          exact ⟨hq, lt_trans hplt hlt⟩
      · rw [List.chain'_cons']
        exact ⟨fun y hy => (hrmem y (List.mem_of_mem_head? hy)).2, hrch⟩

theorem chain_pow2_bound (l : List Vote) :
    ∀ b : Nat, Pow2L b → (∀ v ∈ l, Pow2L v.lockout) → List.Chain' lockLt l →
      (∀ v ∈ l.head?, b ≤ v.lockout) →
      ∀ i v, l.get? i = some v → b * 2 ^ i ≤ v.lockout := by
  induction l with
  | nil =>
    intro b _ _ _ _ i v h
    simp at h
  | cons w l ih =>
    intro b hb hmem hch hhead i v hget
    rw [List.chain'_cons'] at hch
    cases i with
    | zero =>
      injection hget with h
      subst h
      have := hhead w rfl
      simpa using this
    | succ i =>
      have hget' : l.get? i = some v := hget
      have hwpow : Pow2L w.lockout := hmem w (List.mem_cons_self w l)
      have hhead2 : ∀ y ∈ l.head?, w.lockout * 2 ≤ y.lockout := fun y hy =>
        Pow2L.double_le hwpow (hmem y (List.mem_cons_of_mem w (List.mem_of_mem_head? hy)))
          (hch.1 y hy)
      have h2 := ih (w.lockout * 2) hwpow.mul_two
        (fun y hy => hmem y (List.mem_cons_of_mem w hy)) hch.2 hhead2 i v hget'
      have hbw : b ≤ w.lockout := hhead w rfl
      calc b * 2 ^ (i + 1) = (b * 2) * 2 ^ i := by ring
      _ ≤ (w.lockout * 2) * 2 ^ i := Nat.mul_le_mul_right _ (by omega)
      _ ≤ v.lockout := h2

theorem lockchain_bound {t : LockTower} (h : LockChain t) :
    ∀ i v, t.votes.get? i = some v → 2 ^ (i + 1) ≤ v.lockout := by
  intro i v hget
  have := chain_pow2_bound t.votes 2 ⟨1, le_refl 1, by norm_num⟩ h.2 h.1
    (fun w hw => (h.2 w (List.mem_of_mem_head? hw)).two_le) i v hget
  calc 2 ^ (i + 1) = 2 * 2 ^ i := by ring
  _ ≤ v.lockout := this

theorem enter_vote_some {t t2 : LockTower} {vote : Vote} (h : t.enter_vote vote = some t2) :
    vote.lockout = 2 ∧ t2.votes = vote :: doubleLockouts 2 t.votes := by
  unfold LockTower.enter_vote at h
  split at h
  · exact Option.noConfusion h
  · exact Option.noConfusion h
  · split at h
    · split at h
      · rename_i hl _
        injection h with h2
        refine ⟨hl, ?_⟩
        rw [← h2, ← hl]
      · exact Option.noConfusion h
    · exact Option.noConfusion h

theorem pop_full_some {t t2 : LockTower} (h : t.pop_full = some t2) :
    t2.votes = t.votes.dropLast := by
  unfold LockTower.pop_full at h
  split at h
  · split at h
    · injection h with h2
      rw [← h2]
    · exact Option.noConfusion h
  · exact Option.noConfusion h

theorem pushChecks_out {t1 t2 : LockTower} {vote : Vote} {tree : List (Nat × Branch)}
    {cmap : List (Nat × Nat)} {depth : Nat} {b : Bool}
    (h : pushChecks t1 vote tree cmap depth = some (b, t2)) :
    (b = false ∧ t2 = t1) ∨
      (b = true ∧ ∃ ta, t1.enter_vote vote = some ta ∧
        (t2 = ta ∨ t2.votes = ta.votes.dropLast)) := by
  unfold pushChecks at h
  split at h
  · exact Option.noConfusion h
  · injection h with h2
    injection h2 with hb ht
    exact Or.inl ⟨hb.symm, ht.symm⟩
  · split at h
    · exact Option.noConfusion h
    · injection h with h2
      injection h2 with hb ht
      exact Or.inl ⟨hb.symm, ht.symm⟩
    · split at h
      · exact Option.noConfusion h
      · rename_i ta hta
        split at h
        · exact Option.noConfusion h
        · split at h
          · exact Option.noConfusion h
          · rename_i t3 ht3
            injection h with h2
            injection h2 with hb ht
            refine Or.inr ⟨hb.symm, ta, hta, Or.inr ?_⟩
            rw [← ht]
            exact pop_full_some ht3
        · injection h with h2
          injection h2 with hb ht
          exact Or.inr ⟨hb.symm, ta, hta, Or.inl ht.symm⟩

theorem lockchain_rollback {t : LockTower} (h : LockChain t) (time : Nat) :
    LockChain (t.rollback time) := by
  constructor
  · exact chain'_drop _ _ h.1
  · intro v hv
    exact h.2 v (List.drop_subset _ _ hv)

theorem lockchain_enter {t t2 : LockTower} {vote : Vote} (h : LockChain t)
    (he : t.enter_vote vote = some t2) : LockChain t2 := by
  obtain ⟨hl, hv⟩ := enter_vote_some he
  obtain ⟨hrmem, hrch⟩ := doubleLockouts_spec t.votes 2 ⟨1, le_refl 1, by norm_num⟩ h.2 h.1
    (fun w hw => (h.2 w (List.mem_of_mem_head? hw)).two_le)
  constructor
  · rw [hv, List.chain'_cons']
    refine ⟨?_, hrch⟩
    intro y hy
    have h2y : 2 < y.lockout := (hrmem y (List.mem_of_mem_head? hy)).2
    show vote.lockout < y.lockout
    omega
  · intro v hvm
    rw [hv] at hvm
    rcases List.mem_cons.mp hvm with rfl | hvm
    · exact ⟨1, le_refl 1, by rw [hl]; norm_num⟩
    · exact (hrmem v hvm).1

theorem lockchain_push {t t2 : LockTower} {vote : Vote} {tree : List (Nat × Branch)}
    {cmap : List (Nat × Nat)} {depth : Nat} {b : Bool}
    (h : LockChain t) (hp : t.push_vote vote tree cmap depth = some (b, t2)) :
    LockChain t2 := by
  have h1 : LockChain (t.rollback vote.time) := lockchain_rollback h vote.time
  rcases pushChecks_out hp with ⟨_, rfl⟩ | ⟨_, ta, hta, hcase⟩
  · exact h1
  · have h2 : LockChain ta := lockchain_enter h1 hta
    rcases hcase with rfl | hdl
    · exact h2
    · constructor
      · rw [hdl]
        exact chain'_dropLast _ h2.1
      · intro v hv
        rw [hdl] at hv
        exact h2.2 v (List.dropLast_subset _ hv)

theorem reachable_lockchain {t : LockTower} (h : Reachable t) : LockChain t := by
  induction h with
  | init cap => exact ⟨List.chain'_nil, fun v hv => absurd hv (List.not_mem_nil v)⟩
  | step _ hp ih => exact lockchain_push ih hp

theorem lef_ge (time : Nat) : ∀ (vs : List Vote) (last : Int) (i : Nat),
    last < (i : Int) → last ≤ lastExpiredFrom time last i vs := by
  intro vs
  induction vs with
  | nil => intro last i _; exact le_refl last
  | cons v vs ih =>
    intro last i hlt
    simp only [lastExpiredFrom]
    by_cases he : v.lock_height < time
    · rw [if_pos he]
      have := ih (i : Int) (i + 1) (by push_cast; omega)
      omega
    · rw [if_neg he]
      exact ih last (i + 1) (by push_cast; omega)

theorem lef_unexpired (time : Nat) : ∀ (vs : List Vote) (last : Int) (i j : Nat) (v : Vote),
    last < (i : Int) → vs.get? j = some v →
    lastExpiredFrom time last i vs < (i : Int) + j → time ≤ v.lock_height := by
  intro vs
  induction vs with
  | nil => intro last i j v _ hget _; simp at hget
  | cons w vs ih =>
    intro last i j v hlt hget hr
    simp only [lastExpiredFrom] at hr
    cases j with
    | zero =>
      injection hget with hwv
      subst hwv
      by_contra hc
      push_neg at hc
      rw [if_pos hc] at hr
      have := lef_ge time vs (i : Int) (i + 1) (by push_cast; omega)
      push_cast at hr
      omega
    | succ j =>
      have hget' : vs.get? j = some v := hget
      have hlt' : (if w.lock_height < time then (i : Int) else last) < ((i + 1 : Nat) : Int) := by
        split <;> push_cast <;> omega
      exact ih _ (i + 1) j v hlt' hget' (by push_cast at hr ⊢; omega)

/-- C1 (amended): the rollback phase of `push_vote` evicts only a TOP PREFIX
of the vote stack (it pops from the front of the deque): the surviving votes
are `t.votes.drop k` for some `k`, and every surviving vote is unexpired at
the proposed slot (`time ≤ lock_height`). -/
theorem c1_rollback_front_eviction (t : LockTower) (time : Nat) :
    (∃ k, (t.rollback time).votes = t.votes.drop k) ∧
      ∀ v ∈ (t.rollback time).votes, time ≤ v.lock_height := by
  constructor
  · exact ⟨_, rfl⟩
  · intro v hv
    obtain ⟨j, hj⟩ := List.mem_iff_get?.mp hv
    have hj2 : t.votes.get?
        (Int.toNat (lastExpiredFrom time (-1) 0 t.votes + 1) + j) = some v := by
      rw [← List.get?_drop]
      exact hj
    have hge : (-1 : Int) ≤ lastExpiredFrom time (-1) 0 t.votes :=
      lef_ge time t.votes (-1) 0 (by norm_num)
    refine lef_unexpired time t.votes (-1) 0 _ v (by norm_num) hj2 ?_
    push_cast
    omega

/-- C1 (counterexample to the claim as stated): on the tower reached by the
genesis run, rollback at slot 7 leaves the two BOTTOM votes, which is not
`take k` of the stack for any `k`, so the evicted set is not a bottom suffix. -/
theorem c1_suffix_claim_false :
    ¬ ∃ k, ((LockTower.mk [⟨⟨0, 0⟩, 3, 2⟩, ⟨⟨0, 0⟩, 2, 4⟩, ⟨⟨0, 0⟩, 1, 8⟩, ⟨⟨0, 0⟩, 0, 16⟩]
        32 ⟨0, 0⟩).rollback 7).votes =
      List.take k ([⟨⟨0, 0⟩, 3, 2⟩, ⟨⟨0, 0⟩, 2, 4⟩, ⟨⟨0, 0⟩, 1, 8⟩, ⟨⟨0, 0⟩, 0, 16⟩] :
        List Vote) := by
  rintro ⟨k, h⟩
  have hres : ((LockTower.mk [⟨⟨0, 0⟩, 3, 2⟩, ⟨⟨0, 0⟩, 2, 4⟩, ⟨⟨0, 0⟩, 1, 8⟩, ⟨⟨0, 0⟩, 0, 16⟩]
      32 ⟨0, 0⟩).rollback 7).votes = [⟨⟨0, 0⟩, 1, 8⟩, ⟨⟨0, 0⟩, 0, 16⟩] := by decide
  rw [hres] at h
  rcases le_or_lt k 4 with hk | hk
  · interval_cases k <;> exact absurd h (by decide)
  · rw [List.take_of_length_le (by simp; omega)] at h
    exact absurd h (by decide)

/-- C1 (witness): the surviving vote at slot 1 with lockout 8 is unexpired at
slot 7, by the amended theorem applied to the concrete tower. -/
theorem c1_rollback_front_eviction_witness :
    (7 : Nat) ≤ Vote.lock_height ⟨⟨0, 0⟩, 1, 8⟩ :=
  (c1_rollback_front_eviction
    (LockTower.mk [⟨⟨0, 0⟩, 3, 2⟩, ⟨⟨0, 0⟩, 2, 4⟩, ⟨⟨0, 0⟩, 1, 8⟩, ⟨⟨0, 0⟩, 0, 16⟩] 32 ⟨0, 0⟩)
    7).2 ⟨⟨0, 0⟩, 1, 8⟩ (by decide)

/-- C2 (amended): from the empty capacity-32 tower, accepting
(b,0),(b,1),(b,2),(b,3) on the genesis branch and then proposing (b,7)
returns true, but rollback first evicts the TOP TWO votes (lock-heights 5 and
6, both < 7); the final lockouts are [2, 8, 16] from top to bottom, not
[2, 4, 8, 16, 32]. -/
theorem c2_expiry_at_seven :
    pushSeq [] [] 32 (LockTower.new 32)
        [Vote.new ⟨0, 0⟩ 0, Vote.new ⟨0, 0⟩ 1, Vote.new ⟨0, 0⟩ 2, Vote.new ⟨0, 0⟩ 3] =
      some (LockTower.mk [⟨⟨0, 0⟩, 3, 2⟩, ⟨⟨0, 0⟩, 2, 4⟩, ⟨⟨0, 0⟩, 1, 8⟩, ⟨⟨0, 0⟩, 0, 16⟩]
        32 ⟨0, 0⟩) ∧
    ((LockTower.mk [⟨⟨0, 0⟩, 3, 2⟩, ⟨⟨0, 0⟩, 2, 4⟩, ⟨⟨0, 0⟩, 1, 8⟩, ⟨⟨0, 0⟩, 0, 16⟩]
        32 ⟨0, 0⟩).rollback 7).votes = [⟨⟨0, 0⟩, 1, 8⟩, ⟨⟨0, 0⟩, 0, 16⟩] ∧
    (LockTower.mk [⟨⟨0, 0⟩, 3, 2⟩, ⟨⟨0, 0⟩, 2, 4⟩, ⟨⟨0, 0⟩, 1, 8⟩, ⟨⟨0, 0⟩, 0, 16⟩]
        32 ⟨0, 0⟩).push_vote (Vote.new ⟨0, 0⟩ 7) [] [] 32 =
      some (true, LockTower.mk [⟨⟨0, 0⟩, 7, 2⟩, ⟨⟨0, 0⟩, 1, 8⟩, ⟨⟨0, 0⟩, 0, 16⟩] 32 ⟨0, 0⟩) := by
  decide

/-- C2 (counterexample to the claim as stated): the run
(b,0),(b,1),(b,2),(b,3),(b,7) of accepted proposals ends with lockouts
[2, 8, 16], not the claimed [2, 4, 8, 16, 32] (two votes were evicted). -/
theorem c2_claim_false :
    (pushSeq [] [] 32 (LockTower.new 32)
        [Vote.new ⟨0, 0⟩ 0, Vote.new ⟨0, 0⟩ 1, Vote.new ⟨0, 0⟩ 2, Vote.new ⟨0, 0⟩ 3,
          Vote.new ⟨0, 0⟩ 7]).map (fun t => t.votes.map Vote.lockout) = some [2, 8, 16] ∧
      some [2, 8, 16] ≠ some ([2, 4, 8, 16, 32] : List Nat) := by
  decide

/-- C3 (amended): for every tower reachable from an empty tower by
`push_vote` calls that return normally, the lockouts satisfy the REVERSED
bound `2 ^ (i + 1) ≤ votes[i].lockout` (lockouts strictly increase from the
top and are powers of two, so rollback can only push them above the
`2 ^ (i + 1)` line, never below). -/
theorem c3_lockout_lower_bound (t : LockTower) (h : Reachable t) (i : Nat) (v : Vote)
    (hget : t.votes.get? i = some v) : 2 ^ (i + 1) ≤ v.lockout :=
  lockchain_bound (reachable_lockchain h) i v hget

/-- C3 (witness): the bound instantiated on the tower reached by one accepted
genesis proposal. -/
theorem c3_lockout_lower_bound_witness :
    2 ^ (0 + 1) ≤ (Vote.mk ⟨0, 0⟩ 0 2).lockout :=
  c3_lockout_lower_bound (LockTower.mk [⟨⟨0, 0⟩, 0, 2⟩] 32 ⟨0, 0⟩)
    (Reachable.step (Reachable.init 32)
      (show (LockTower.new 32).push_vote (Vote.new ⟨0, 0⟩ 0) [] [] 32 =
        some (true, LockTower.mk [⟨⟨0, 0⟩, 0, 2⟩] 32 ⟨0, 0⟩) by decide))
    0 (Vote.mk ⟨0, 0⟩ 0 2) rfl

/-- C3 (counterexample to the claim as stated): after the accepted proposals
(b,0)..(b,3),(b,7) the tower's lockouts are [2, 8, 16]; the vote at index 1
has lockout 8 > 2 ^ 2, so invariant A3 fails after an accepted proposal. -/
theorem c3_a3_false :
    (pushSeq [] [] 32 (LockTower.new 32)
        [Vote.new ⟨0, 0⟩ 0, Vote.new ⟨0, 0⟩ 1, Vote.new ⟨0, 0⟩ 2, Vote.new ⟨0, 0⟩ 3,
          Vote.new ⟨0, 0⟩ 7]).map (fun t => t.votes.map Vote.lockout) = some [2, 8, 16] ∧
      ¬ (8 ≤ 2 ^ (1 + 1)) := by
  decide

/-- C4 (amended): the genesis run (b,0),(b,1),(b,2),(b,3) yields four votes
with lockouts [2, 4, 8, 16] from top to bottom and lock-heights (slot +
lockout) [5, 6, 9, 16], not [2, 5, 10, 19]. -/
theorem c4_genesis_run :
    pushSeq [] [] 32 (LockTower.new 32)
        [Vote.new ⟨0, 0⟩ 0, Vote.new ⟨0, 0⟩ 1, Vote.new ⟨0, 0⟩ 2, Vote.new ⟨0, 0⟩ 3] =
      some (LockTower.mk [⟨⟨0, 0⟩, 3, 2⟩, ⟨⟨0, 0⟩, 2, 4⟩, ⟨⟨0, 0⟩, 1, 8⟩, ⟨⟨0, 0⟩, 0, 16⟩]
        32 ⟨0, 0⟩) ∧
    (LockTower.mk [⟨⟨0, 0⟩, 3, 2⟩, ⟨⟨0, 0⟩, 2, 4⟩, ⟨⟨0, 0⟩, 1, 8⟩, ⟨⟨0, 0⟩, 0, 16⟩]
        32 ⟨0, 0⟩).votes.length = 4 ∧
    (LockTower.mk [⟨⟨0, 0⟩, 3, 2⟩, ⟨⟨0, 0⟩, 2, 4⟩, ⟨⟨0, 0⟩, 1, 8⟩, ⟨⟨0, 0⟩, 0, 16⟩]
        32 ⟨0, 0⟩).votes.map Vote.lockout = [2, 4, 8, 16] ∧
    (LockTower.mk [⟨⟨0, 0⟩, 3, 2⟩, ⟨⟨0, 0⟩, 2, 4⟩, ⟨⟨0, 0⟩, 1, 8⟩, ⟨⟨0, 0⟩, 0, 16⟩]
        32 ⟨0, 0⟩).votes.map Vote.lock_height = [5, 6, 9, 16] := by
  decide

/-- C4 (counterexample to the claim as stated): the lock-heights after the
genesis run are [5, 6, 9, 16], not the claimed [2, 5, 10, 19] (the code's own
test asserts lock-heights 6 and 9 at indices 1 and 2). -/
theorem c4_lock_heights_false :
    (pushSeq [] [] 32 (LockTower.new 32)
        [Vote.new ⟨0, 0⟩ 0, Vote.new ⟨0, 0⟩ 1, Vote.new ⟨0, 0⟩ 2, Vote.new ⟨0, 0⟩ 3]).map
        (fun t => t.votes.map Vote.lock_height) = some [5, 6, 9, 16] ∧
      some [5, 6, 9, 16] ≠ some ([2, 5, 10, 19] : List Nat) := by
  decide

/-- C5 (amended): from the state after (b,0)..(b,3),(b,7) — votes at slots
[7, 1, 0] with lockouts [2, 8, 16] — proposing (b,10) evicts TWO votes during
rollback (both the slot-7 vote and the slot-1 vote have lock-height 9 < 10),
leaving only the slot-0 vote, and then pushes the new vote: final lockouts
[2, 16]. -/
theorem c5_deep_expiry :
    pushSeq [] [] 32 (LockTower.new 32)
        [Vote.new ⟨0, 0⟩ 0, Vote.new ⟨0, 0⟩ 1, Vote.new ⟨0, 0⟩ 2, Vote.new ⟨0, 0⟩ 3,
          Vote.new ⟨0, 0⟩ 7] =
      some (LockTower.mk [⟨⟨0, 0⟩, 7, 2⟩, ⟨⟨0, 0⟩, 1, 8⟩, ⟨⟨0, 0⟩, 0, 16⟩] 32 ⟨0, 0⟩) ∧
    ((LockTower.mk [⟨⟨0, 0⟩, 7, 2⟩, ⟨⟨0, 0⟩, 1, 8⟩, ⟨⟨0, 0⟩, 0, 16⟩] 32 ⟨0, 0⟩).rollback
        10).votes = [⟨⟨0, 0⟩, 0, 16⟩] ∧
    (LockTower.mk [⟨⟨0, 0⟩, 7, 2⟩, ⟨⟨0, 0⟩, 1, 8⟩, ⟨⟨0, 0⟩, 0, 16⟩] 32 ⟨0, 0⟩).push_vote
        (Vote.new ⟨0, 0⟩ 10) [] [] 32 =
      some (true, LockTower.mk [⟨⟨0, 0⟩, 10, 2⟩, ⟨⟨0, 0⟩, 0, 16⟩] 32 ⟨0, 0⟩) := by
  decide

/-- C5 (counterexample to the claim as stated): rollback at slot 10 shrinks
the scenario-2 stack from 3 votes to 1 vote — by two votes, not by one. -/
theorem c5_single_eviction_false :
    pushSeq [] [] 32 (LockTower.new 32)
        [Vote.new ⟨0, 0⟩ 0, Vote.new ⟨0, 0⟩ 1, Vote.new ⟨0, 0⟩ 2, Vote.new ⟨0, 0⟩ 3,
          Vote.new ⟨0, 0⟩ 7] =
      some (LockTower.mk [⟨⟨0, 0⟩, 7, 2⟩, ⟨⟨0, 0⟩, 1, 8⟩, ⟨⟨0, 0⟩, 0, 16⟩] 32 ⟨0, 0⟩) ∧
    ((LockTower.mk [⟨⟨0, 0⟩, 7, 2⟩, ⟨⟨0, 0⟩, 1, 8⟩, ⟨⟨0, 0⟩, 0, 16⟩] 32 ⟨0, 0⟩).rollback
        10).votes.length = 1 ∧
    (LockTower.mk [⟨⟨0, 0⟩, 7, 2⟩, ⟨⟨0, 0⟩, 1, 8⟩, ⟨⟨0, 0⟩, 0, 16⟩] 32 ⟨0, 0⟩).votes.length
        = 3 ∧
    (1 : Nat) ≠ 3 - 1 := by
  decide

/-- C6 (amended): provided the convergence count for the inspected branch id
is at most 100 (otherwise `is_converged` panics, see C10), the convergence
phase passes if and only if `depth` is not a valid index into `votes` (the
check trivially passes) or the map's count for `votes[depth].branch.id`
(defaulting to 0 when absent) is strictly greater than 50. -/
theorem c6_convergence_iff (t : LockTower) (cmap : List (Nat × Nat)) (depth : Nat)
    (hbound : ∀ v, t.votes.get? depth = some v → convCount cmap v.branch.id ≤ 100) :
    t.is_converged cmap depth = some true ↔
      ∀ v, t.votes.get? depth = some v → 50 < convCount cmap v.branch.id := by
  cases hg : t.votes.get? depth with
  | none =>
    have hred : t.is_converged cmap depth = some true := by
      unfold LockTower.is_converged LockTower.get_vote
      rw [hg]
    rw [hred]
    constructor
    · intro _ w hw
      exact Option.noConfusion hw
    · intro _
      rfl
  | some v =>
    have hred : t.is_converged cmap depth =
        if convCount cmap v.branch.id ≤ 100 then some (decide (50 < convCount cmap v.branch.id))
        else none := by
      unfold LockTower.is_converged LockTower.get_vote
      rw [hg]
    rw [hred, if_pos (hbound v hg)]
    constructor
    · intro hd w hw
      have hwv : w = v := Option.some.inj hw.symm
      subst hwv
      have := Option.some.inj hd
      exact of_decide_eq_true this
    · intro hall
      have := hall v rfl
      rw [decide_eq_true this]

/-- C6 (witness): a tower whose top vote sits on branch 0, a count of 60 ≤
100 for that branch, depth 0 — the phase passes because 60 > 50. -/
theorem c6_convergence_iff_witness :
    (LockTower.mk [⟨⟨0, 0⟩, 0, 2⟩] 32 ⟨0, 0⟩).is_converged [(0, 60)] 0 = some true :=
  (c6_convergence_iff (LockTower.mk [⟨⟨0, 0⟩, 0, 2⟩] 32 ⟨0, 0⟩) [(0, 60)] 0
      (fun v hv => by
        have hv2 : (⟨⟨0, 0⟩, 0, 2⟩ : Vote) = v := Option.some.inj hv
        rw [← hv2]
        decide)).mpr
    (fun v hv => by
      have hv2 : (⟨⟨0, 0⟩, 0, 2⟩ : Vote) = v := Option.some.inj hv
      rw [← hv2]
      decide)

/-- C6 (counterexample to the claim as stated): with a count of 101 for the
inspected branch id, depth 0 is a valid index and the count exceeds 50, yet
the convergence phase does not pass — `is_converged` hits the
`assert!(v <= 100)` panic instead of returning true. -/
theorem c6_assert_breaks_iff :
    (LockTower.mk [⟨⟨0, 0⟩, 0, 2⟩] 32 ⟨0, 0⟩).is_converged [(0, 101)] 0 ≠ some true ∧
      50 < convCount [(0, 101)] 0 ∧
      (LockTower.mk [⟨⟨0, 0⟩, 0, 2⟩] 32 ⟨0, 0⟩).votes.get? 0 =
        some (⟨⟨0, 0⟩, 0, 2⟩ : Vote) := by
  decide

/-- C7 (confirmed): the ancestry phase of `push_vote` tests exactly the
branch the tip accessor returns — `votes[0].branch` when the tower is
non-empty and `trunk` when it is empty. -/
theorem c7_ancestry_checks_tip (t : LockTower) (vote : Vote) (tree : List (Nat × Branch)) :
    t.is_valid vote tree = Branch.is_trunk_of t.last_branch vote.branch tree ∧
      t.last_branch = (match t.votes with
        | [] => t.branch_trunk
        | v :: _ => v.branch) := by
  refine ⟨rfl, ?_⟩
  obtain ⟨vs, m, tr⟩ := t
  cases vs <;> rfl

/-- C8 (confirmed): when `push_vote` returns false (ancestry or convergence
rejection), the tower state it leaves behind is exactly the state produced by
the rollback phase for the proposed slot. -/
theorem c8_reject_keeps_rollback_state (t : LockTower) (vote : Vote)
    (tree : List (Nat × Branch)) (cmap : List (Nat × Nat)) (depth : Nat) (t2 : LockTower)
    (h : t.push_vote vote tree cmap depth = some (false, t2)) :
    t2 = t.rollback vote.time := by
  rcases pushChecks_out h with ⟨_, ht⟩ | ⟨hb, _⟩
  · exact ht
  · exact absurd hb (by simp)

/-- C8 (witness): an empty tower rejects a vote on an unknown branch and is
left exactly at its rollback state. -/
theorem c8_reject_keeps_rollback_state_witness :
    LockTower.mk [] 32 ⟨0, 0⟩ = (LockTower.mk [] 32 ⟨0, 0⟩).rollback 0 :=
  c8_reject_keeps_rollback_state (LockTower.mk [] 32 ⟨0, 0⟩) ⟨⟨5, 3⟩, 0, 2⟩ [] [] 32
    (LockTower.mk [] 32 ⟨0, 0⟩) (by decide)

/-- C9 (confirmed): `is_trunk_of` is reflexive — for every branch and every
fork registry the walk starts at the branch itself and succeeds immediately. -/
theorem c9_is_trunk_of_refl (a : Branch) (tree : List (Nat × Branch)) :
    Branch.is_trunk_of a a tree = some true := by
  unfold Branch.is_trunk_of
  simp [is_trunk_ofFuel]

/-- C10 (amended): the convergence check panics exactly when it inspects a
vote whose supplied count exceeds 100 (so under the precondition that every
count is at most 100 the assertion branch is unreachable), and such a panic
propagates out of `push_vote` once the ancestry check has passed; `push_vote`
itself is NOT total under that precondition, because `enter_vote` has its own
assertions (see the counterexample). -/
theorem c10_convergence_assert (t : LockTower) (vote : Vote) (tree : List (Nat × Branch))
    (cmap : List (Nat × Nat)) (depth : Nat) :
    (t.is_converged cmap depth = none ↔
      ∃ v, t.votes.get? depth = some v ∧ 100 < convCount cmap v.branch.id) ∧
      ((t.rollback vote.time).is_valid vote tree = some true →
        (t.rollback vote.time).is_converged cmap depth = none →
        t.push_vote vote tree cmap depth = none) := by
  constructor
  · cases hg : t.votes.get? depth with
    | none =>
      have hred : t.is_converged cmap depth = some true := by
        unfold LockTower.is_converged LockTower.get_vote
        rw [hg]
      rw [hred]
      refine iff_of_false (by simp) ?_
      rintro ⟨w, hw, _⟩
      exact Option.noConfusion hw
    | some v =>
      have hred : t.is_converged cmap depth =
          if convCount cmap v.branch.id ≤ 100 then
            some (decide (50 < convCount cmap v.branch.id))
          else none := by
        unfold LockTower.is_converged LockTower.get_vote
        rw [hg]
      rw [hred]
      by_cases hb : convCount cmap v.branch.id ≤ 100
      · rw [if_pos hb]
        refine iff_of_false (by simp) ?_
        rintro ⟨w, hw, hcc⟩
        have hwv : w = v := Option.some.inj hw.symm
        subst hwv
        omega
      · rw [if_neg hb]
        exact iff_of_true rfl ⟨v, rfl, by omega⟩
  · intro hv hc
    unfold LockTower.push_vote pushChecks
    rw [hv, hc]

/-- C10 (counterexample to the claim as stated): with an EMPTY convergence
map (every count trivially at most 100), `push_vote` still panics — the
slot-monotonicity assertion in `enter_vote` fires when the proposed slot 0 is
below the tower's top slot 5 — so `push_vote` is not total under the claimed
precondition. -/
theorem c10_total_claim_false :
    (LockTower.mk [⟨⟨0, 0⟩, 5, 2⟩] 32 ⟨0, 0⟩).push_vote (Vote.new ⟨0, 0⟩ 0) [] [] 32 =
        none ∧
      ∀ p ∈ ([] : List (Nat × Nat)), p.2 ≤ 100 := by
  decide

end Locktower
